import Mathlib

/-!
Shallow embedding of the `best-friend` onset detector
(`src/bpm.rs` together with the numeric helpers of `src/utils.rs`).

Conventions of the embedding:
* `f32` sample values are modelled as exact rationals (`ℚ`);
* a Rust slice-indexing expression that can panic out of bounds
  (`&v[a..b]`) is modelled by an `Option`-returning `sliceRange`,
  so that the fallible operations (`calculate_threshold`,
  `check_for_previous_onset`, and hence `process`) return `Option`;
* the fixed-size array `[f32; BUFFER_SIZE]` is modelled as a `List ℚ`
  (the theorems that need it carry the length `BUFFER_SIZE` as a
  hypothesis);
* mutation of `self` is modelled by explicit state passing: a Rust
  method that mutates `self` and returns `r` becomes a Lean function
  returning the pair of `r` and the updated state.
-/

/-- `const BUFFER_SIZE: usize = 512` from `bpm.rs`. -/
def BUFFER_SIZE : Nat := 512

/-- `const BUFFERS_PER_FRAME: usize = 4` from `bpm.rs`. -/
def BUFFERS_PER_FRAME : Nat := 4

/-- `const FRAME_SIZE: usize = BUFFER_SIZE * BUFFERS_PER_FRAME` from `bpm.rs`. -/
def FRAME_SIZE : Nat := BUFFER_SIZE * BUFFERS_PER_FRAME

/-- One audio chunk, `[f32; BUFFER_SIZE]` in the source.  The length
constraint is carried as a hypothesis where a theorem needs it. -/
abbrev Chunk := List ℚ

/-- `mean` from `utils.rs`: `set.iter().sum::<f32>() / (set.len() as f32)`.
On the empty list the Rust code computes `0.0 / 0.0` (a NaN); the rational
embedding yields `0` there; no claim touches the empty case. -/
def mean (set : List ℚ) : ℚ := set.sum / (set.length : ℚ)

/-- The ascending sort performed by `copy.sort_by(|a, b| a.partial_cmp(b).unwrap())`
in `median`.  Over `ℚ` the order is total, and any correct ascending sort of a
list of rationals produces the same list, so insertion sort is an exact model. -/
def sortAsc (set : List ℚ) : List ℚ := List.insertionSort (· ≤ ·) set

/-- `median` from `utils.rs`.  It sorts a copy ascending, takes
`middle_index = len / 2`, and for even length returns
`mean(&copy[middle_index - 1..middle_index])` — a HALF-OPEN Rust range
holding the single element at `middle_index - 1`; for odd length it
returns `copy[middle_index]`.  (For the empty list the Rust code panics on
the `usize` underflow `middle_index - 1`; the embedding's truncated `Nat`
subtraction makes it total there, and no claim touches the empty case.) -/
def median (set : List ℚ) : ℚ :=
  let copy := sortAsc set
  let middle_index := copy.length / 2
  if copy.length % 2 = 0 then
    mean ((copy.drop (middle_index - 1)).take (middle_index - (middle_index - 1)))
  else
    copy.getD middle_index 0

/-- A sliding window of `BUFFERS_PER_FRAME` chunks (`struct Frame` in `bpm.rs`,
whose `samples: Vec<FrameSlice>` we model as the list of underlying chunks). -/
structure Frame where
  samples : List Chunk
deriving DecidableEq

/-- The all-zero chunk produced by `FrameSlice::new()`. -/
def zeroChunk : Chunk := List.replicate BUFFER_SIZE 0

/-- `Frame::new()`: `BUFFERS_PER_FRAME` zero-filled chunks. -/
def Frame.new : Frame := ⟨List.replicate BUFFERS_PER_FRAME zeroChunk⟩

/-- `Frame::write`: push the new chunk at the back, remove and return the
front (oldest) element.  The pushed list is never empty, so `headI`/`tail`
are exact models of `Vec::remove(0)` here. -/
def Frame.write (f : Frame) (sample : Chunk) : Chunk × Frame :=
  let pushed := f.samples ++ [sample]
  (pushed.headI, ⟨pushed.tail⟩)

/-- `Frame::buffer`: materialize the concatenation of the held chunks in
oldest-to-newest order.  The Rust code copies each chunk at offset
`i * BUFFER_SIZE` into a `[0.; FRAME_SIZE]` array, which for the reachable
frames (exactly `BUFFERS_PER_FRAME` chunks of length `BUFFER_SIZE`) is
precisely this concatenation. -/
def Frame.buffer (f : Frame) : List ℚ := f.samples.flatten

/-- `Frame::energy`: `self.buffer().iter().fold(0., |acc, x| acc + x * x)`. -/
def Frame.energy (f : Frame) : ℚ :=
  f.buffer.foldl (fun acc x => acc + x * x) 0

/-- `enum OnsetDetectionMode` from `bpm.rs`. -/
inductive OnsetDetectionMode
  | Energy
  | SpectralDifference
deriving DecidableEq

/-- `struct FrameProcessor` from `bpm.rs`.  `frames.1` is the "previous"
frame (`frames.0` in Rust), `frames.2` the "current" frame (`frames.1`). -/
structure FrameProcessor where
  mode : OnsetDetectionMode
  frames : Frame × Frame
  history : List ℚ
  threshold : ℚ
  highest_peak : ℚ

/-- `FrameProcessor::new()`. -/
def FrameProcessor.new : FrameProcessor :=
  { mode := OnsetDetectionMode.Energy
    frames := (Frame.new, Frame.new)
    history := []
    threshold := 0
    highest_peak := 0 }

/-- `FrameProcessor::write`: write the chunk into the current frame and
push the chunk evicted from "current" into "previous" (whose own eviction
is discarded). -/
def FrameProcessor.write (s : FrameProcessor) (buffer : Chunk) : FrameProcessor :=
  let r1 := s.frames.2.write buffer
  let r0 := s.frames.1.write r1.1
  { s with frames := (r0.2, r1.2) }

/-- `FrameProcessor::update_history`: `self.history.insert(0, value)`. -/
def FrameProcessor.update_history (s : FrameProcessor) (value : ℚ) : FrameProcessor :=
  { s with history := value :: s.history }

/-- Rust slice indexing `&l[a..b]`, which panics unless `a ≤ b ∧ b ≤ l.len()`;
the panic is modelled as `none`. -/
def sliceRange (l : List ℚ) (a b : Nat) : Option (List ℚ) :=
  if a ≤ b ∧ b ≤ l.length then some ((l.take b).drop a) else none

/-- `struct ThresholdParams` from `bpm.rs`. -/
structure ThresholdParams where
  lambda : ℚ
  alpha : ℚ
  m : Nat
  hp_weight : ℚ

/-- `FrameProcessor::calculate_threshold`: with fixed parameters
`lambda = 1.0, alpha = 0.7, m = 10, hp_weight = 0.05`, reads
`&self.history[0..m]` (panics — `none` — when the history is shorter
than `m`), sets `self.threshold` to
`lambda * median(prev_values) + alpha * mean(prev_values) + highest_peak * hp_weight`
and returns it. -/
def FrameProcessor.calculate_threshold (s : FrameProcessor) : Option (ℚ × FrameProcessor) :=
  let params : ThresholdParams := { lambda := 1.0, alpha := 0.7, m := 10, hp_weight := 0.05 }
  let weighted_highest_peak := s.highest_peak * params.hp_weight
  match sliceRange s.history 0 params.m with
  | none => none
  | some prev_values =>
      let t := params.lambda * median prev_values + params.alpha * mean prev_values
                 + weighted_highest_peak
      some (t, { s with threshold := t })

/-- `FrameProcessor::check_for_previous_onset`: reads `self.history[0..3]`
(panics — `none` — when the history is shorter than 3), destructures it as
`(curr, prev, prev_prev)`, and declares a confirmed onset iff
`prev > curr && prev > prev_prev && prev > self.threshold`, in which case
`highest_peak` is raised to `prev` when `prev` exceeds it.  The second
match arm mirrors the unreachable `_ => (0., 0., 0.)` fallback of the Rust
`match`, with which both `if`s fail and the call returns `false`. -/
def FrameProcessor.check_for_previous_onset (s : FrameProcessor) :
    Option (Bool × FrameProcessor) :=
  match sliceRange s.history 0 3 with
  | none => none
  | some v =>
      match v with
      | curr :: prev :: prev_prev :: _ =>
          if prev > curr ∧ prev > prev_prev then
            if prev > s.threshold then
              some (true, { s with highest_peak :=
                if prev > s.highest_peak then prev else s.highest_peak })
            else some (false, s)
          else some (false, s)
      | _ => some (false, s)

/-- `FrameProcessor::process`: shift the chunk in, compute the energy ODF
over the post-shift frame pair, prepend it to the history, recompute the
threshold (this is where a warm-up call dies out of bounds), then run the
peak pick. -/
def FrameProcessor.process (s : FrameProcessor) (buffer : Chunk) :
    Option (Bool × FrameProcessor) :=
  let s1 := s.write buffer
  let odf := |s1.frames.2.energy - s1.frames.1.energy|
  let s2 := s1.update_history odf
  match s2.calculate_threshold with
  | none => none
  | some r => r.2.check_for_previous_onset

/-- Iterated `FrameProcessor::write` over a list of chunks, oldest first. -/
def FrameProcessor.writeAll (s : FrameProcessor) (cs : List Chunk) : FrameProcessor :=
  cs.foldl FrameProcessor.write s

/-- Iterated `Frame::write`, returning the evicted chunks in order together
with the final frame. -/
def Frame.writeSeq (f : Frame) (cs : List Chunk) : List Chunk × Frame :=
  match cs with
  | [] => ([], f)
  | c :: rest =>
      let r := f.write c
      let r2 := r.2.writeSeq rest
      (r.1 :: r2.1, r2.2)

/-- Iterated `Frame::write` keeping only the final frame. -/
def Frame.writeAll (f : Frame) (cs : List Chunk) : Frame :=
  cs.foldl (fun g c => (g.write c).2) f

/-- The all-one chunk, used as a concrete non-zero input. -/
def oneChunk : Chunk := List.replicate BUFFER_SIZE 1

/-- A concrete post-warm-up state: a fresh processor whose history already
holds ten zero entries. -/
def warmState : FrameProcessor :=
  { FrameProcessor.new with history := List.replicate 10 0 }

/-- The joint shape of the two frames of a processor: previous and current
each hold four chunks, and their concatenation is `l`. -/
def framePairInv (s : FrameProcessor) (l : List Chunk) : Prop :=
  ∃ p1 p2 p3 p4 q1 q2 q3 q4,
    s.frames.1.samples = [p1, p2, p3, p4] ∧
    s.frames.2.samples = [q1, q2, q3, q4] ∧
    [p1, p2, p3, p4, q1, q2, q3, q4] = l

/-! ### Behaviour of `median` on even-length input -/

/-- C4 counterexample: on `[1, 2, 3, 4]` (ascending copy `[1, 2, 3, 4]`,
middle index 2) the code returns 2 — the single element at index 1, since
the Rust half-open range `[middle_index - 1 .. middle_index]` holds ONE
element — which is neither the mean `5/2` of the two middle elements
`(2, 3)` nor the mean `3` of the two neighbours `(2, 4)` of the middle
index, so `median` does not return the arithmetic mean of two elements. -/
theorem median_even_cex :
    median [1, 2, 3, 4] = 2 ∧ median [1, 2, 3, 4] ≠ mean [2, 3] ∧
      median [1, 2, 3, 4] ≠ mean [2, 4] := by
  have h : median [1, 2, 3, 4] = 2 := by
    norm_num [median, sortAsc, mean, List.insertionSort, List.orderedInsert, List.getD]
  refine ⟨h, ?_, ?_⟩ <;> rw [h] <;> norm_num [mean]

/-- C4 amended: for every non-empty even-length input, `median` returns the
single element at index `length / 2 - 1` of the ascending-sorted copy (the
element just below the middle index — the mean of the ONE-element half-open
range `[middle_index - 1 .. middle_index]`), not a mean of two elements. -/
theorem median_even_single (l : List ℚ) (hne : l ≠ []) (heven : l.length % 2 = 0) :
    median l = (sortAsc l).getD (l.length / 2 - 1) 0 := by
  have hlen : (sortAsc l).length = l.length := List.length_insertionSort _ l
  have hpos : 0 < l.length := List.length_pos.mpr hne
  have h2 : 2 ≤ l.length := by omega
  unfold median
  show (if (sortAsc l).length % 2 = 0 then
          mean (((sortAsc l).drop ((sortAsc l).length / 2 - 1)).take
            ((sortAsc l).length / 2 - ((sortAsc l).length / 2 - 1)))
        else (sortAsc l).getD ((sortAsc l).length / 2) 0) = _
  rw [hlen, if_pos heven]
  have hmid : l.length / 2 - (l.length / 2 - 1) = 1 := by omega
  rw [hmid]
  have hidx : l.length / 2 - 1 < (sortAsc l).length := by
    rw [hlen]
    omega
  have htake : (List.take 1 (List.drop (l.length / 2 - 1) (sortAsc l)))
      = [(sortAsc l)[l.length / 2 - 1]] := by
    rw [List.drop_eq_getElem_cons hidx]
    rfl
  rw [htake, List.getD_eq_getElem _ _ hidx]
  show ((sortAsc l)[l.length / 2 - 1] + 0) / ((1 : Nat) : ℚ) = (sortAsc l)[l.length / 2 - 1]
  norm_num

/-- C4 amended witness at the concrete input `[1, 2, 3, 4]`. -/
theorem median_even_single_witness :
    (([1, 2, 3, 4] : List ℚ) ≠ [] ∧ ([1, 2, 3, 4] : List ℚ).length % 2 = 0) ∧
    median [1, 2, 3, 4]
      = (sortAsc [1, 2, 3, 4]).getD (([1, 2, 3, 4] : List ℚ).length / 2 - 1) 0 :=
  ⟨⟨by simp, by decide⟩, median_even_single [1, 2, 3, 4] (by simp) (by decide)⟩

example : median [1, 2, 3] = 2 := by
  norm_num [median, sortAsc, mean, List.insertionSort, List.orderedInsert, List.getD]
example : median [1] = 1 := by
  norm_num [median, sortAsc, mean, List.insertionSort, List.orderedInsert, List.getD]
example : mean [1, 2, 3, 4] = 5/2 := by norm_num [mean]

/-! ### Helper lemmas about `Frame.energy` -/

lemma foldl_add_sq (l : List ℚ) (a : ℚ) :
    l.foldl (fun acc x => acc + x * x) a = a + (l.map (fun x => x * x)).sum := by
  induction l generalizing a with
  | nil => simp
  | cons x t ih => simp [ih]; ring

lemma sum_map_sq_nonneg (l : List ℚ) : 0 ≤ (l.map (fun x => x * x)).sum := by
  apply List.sum_nonneg
  intro x hx
  obtain ⟨y, _, rfl⟩ := List.mem_map.mp hx
  exact mul_self_nonneg y

lemma sum_map_sq_eq_zero_iff (l : List ℚ) :
    (l.map (fun x => x * x)).sum = 0 ↔ ∀ x ∈ l, x = 0 := by
  induction l with
  | nil => simp
  | cons x t ih =>
      simp only [List.map_cons, List.sum_cons, List.mem_cons]
      rw [add_eq_zero_iff_of_nonneg (mul_self_nonneg x) (sum_map_sq_nonneg t)]
      rw [mul_self_eq_zero, ih]
      constructor
      · rintro ⟨hx, ht⟩ y (rfl | hy)
        · exact hx
        · exact ht y hy
      · intro h
        exact ⟨h x (Or.inl rfl), fun y hy => h y (Or.inr hy)⟩

/-- C9: for every frame (samples modelled as exact rationals), the energy —
the sum of squares of every sample of the materialized buffer — is
non-negative, and it is zero exactly when every sample of the buffer is
zero. -/
theorem energy_nonneg_zero_iff (f : Frame) :
    0 ≤ f.energy ∧ (f.energy = 0 ↔ ∀ x ∈ f.buffer, x = 0) := by
  unfold Frame.energy
  rw [foldl_add_sq, zero_add]
  exact ⟨sum_map_sq_nonneg _, sum_map_sq_eq_zero_iff _⟩

/-! ### Frame FIFO behaviour -/

/-- C7: writing four chunks into a fresh frame materializes to their
concatenation in oldest-to-newest order, and a fifth write evicts the
first chunk unchanged. -/
theorem frame_fifo (c1 c2 c3 c4 c5 : Chunk)
    (h1 : c1.length = BUFFER_SIZE) (h2 : c2.length = BUFFER_SIZE)
    (h3 : c3.length = BUFFER_SIZE) (h4 : c4.length = BUFFER_SIZE)
    (h5 : c5.length = BUFFER_SIZE) :
    (Frame.new.writeAll [c1, c2, c3, c4]).buffer = c1 ++ c2 ++ c3 ++ c4 ∧
    ((Frame.new.writeAll [c1, c2, c3, c4]).write c5).1 = c1 := by
  have hs : (Frame.new.writeAll [c1, c2, c3, c4]).samples = [c1, c2, c3, c4] := rfl
  constructor
  · rw [Frame.buffer, hs]
    simp
  · rw [Frame.write, hs]
    rfl

/-- C7 witness at concrete all-constant chunks. -/
theorem frame_fifo_witness :
    ((List.replicate BUFFER_SIZE (1:ℚ)).length = BUFFER_SIZE ∧
     (List.replicate BUFFER_SIZE (2:ℚ)).length = BUFFER_SIZE ∧
     (List.replicate BUFFER_SIZE (3:ℚ)).length = BUFFER_SIZE ∧
     (List.replicate BUFFER_SIZE (4:ℚ)).length = BUFFER_SIZE ∧
     (List.replicate BUFFER_SIZE (5:ℚ)).length = BUFFER_SIZE) ∧
    ((Frame.new.writeAll [List.replicate BUFFER_SIZE (1:ℚ), List.replicate BUFFER_SIZE (2:ℚ),
        List.replicate BUFFER_SIZE (3:ℚ), List.replicate BUFFER_SIZE (4:ℚ)]).buffer
      = List.replicate BUFFER_SIZE (1:ℚ) ++ List.replicate BUFFER_SIZE (2:ℚ)
        ++ List.replicate BUFFER_SIZE (3:ℚ) ++ List.replicate BUFFER_SIZE (4:ℚ) ∧
     ((Frame.new.writeAll [List.replicate BUFFER_SIZE (1:ℚ), List.replicate BUFFER_SIZE (2:ℚ),
        List.replicate BUFFER_SIZE (3:ℚ), List.replicate BUFFER_SIZE (4:ℚ)]).write
          (List.replicate BUFFER_SIZE (5:ℚ))).1 = List.replicate BUFFER_SIZE (1:ℚ)) :=
  ⟨⟨by simp, by simp, by simp, by simp, by simp⟩,
   frame_fifo _ _ _ _ _ (by simp) (by simp) (by simp) (by simp) (by simp)⟩

/-! ### Frame window invariant -/

lemma writeAll_length_invariant (cs : List Chunk) (f : Frame) :
    (f.writeAll cs).samples.length = f.samples.length := by
  induction cs generalizing f with
  | nil => rfl
  | cons c rest ih =>
      have : (f.writeAll (c :: rest)) = ((f.write c).2).writeAll rest := rfl
      rw [this, ih]
      simp [Frame.write]

lemma writeAll_chunk_length_invariant (cs : List Chunk) (f : Frame)
    (hall : ∀ c ∈ f.samples, c.length = BUFFER_SIZE)
    (hcs : ∀ c ∈ cs, c.length = BUFFER_SIZE) :
    ∀ c ∈ (f.writeAll cs).samples, c.length = BUFFER_SIZE := by
  induction cs generalizing f with
  | nil => exact hall
  | cons c rest ih =>
      have hstep : (f.writeAll (c :: rest)) = ((f.write c).2).writeAll rest := rfl
      rw [hstep]
      apply ih
      · intro d hd
        have hd' : d ∈ f.samples ++ [c] := List.mem_of_mem_tail hd
        rcases List.mem_append.mp hd' with h | h
        · exact hall d h
        · rw [List.mem_singleton.mp h]
          exact hcs c (List.mem_cons_self _ _)
      · intro d hd
        exact hcs d (List.mem_cons_of_mem _ hd)

lemma sum_map_length_const (L : List Chunk) (h : ∀ c ∈ L, c.length = BUFFER_SIZE) :
    (L.map List.length).sum = L.length * BUFFER_SIZE := by
  induction L with
  | nil => simp
  | cons c rest ih =>
      simp only [List.map_cons, List.sum_cons, List.length_cons]
      rw [h c (List.mem_cons_self _ _), ih (fun d hd => h d (List.mem_cons_of_mem _ hd))]
      ring

/-- C8: after any sequence of valid writes the frame still holds exactly
`BUFFERS_PER_FRAME` chunks of length `BUFFER_SIZE`, and its materialized
buffer has length `FRAME_SIZE = BUFFER_SIZE * BUFFERS_PER_FRAME`; `write`
itself is total, so every write succeeds. -/
theorem frame_window_invariant (cs : List Chunk)
    (hcs : ∀ c ∈ cs, c.length = BUFFER_SIZE) :
    (Frame.new.writeAll cs).samples.length = BUFFERS_PER_FRAME ∧
    (∀ c ∈ (Frame.new.writeAll cs).samples, c.length = BUFFER_SIZE) ∧
    (Frame.new.writeAll cs).buffer.length = FRAME_SIZE := by
  have hlen : (Frame.new.writeAll cs).samples.length = BUFFERS_PER_FRAME := by
    rw [writeAll_length_invariant]
    simp [Frame.new]
  have hall : ∀ c ∈ (Frame.new.writeAll cs).samples, c.length = BUFFER_SIZE := by
    apply writeAll_chunk_length_invariant cs Frame.new _ hcs
    intro c hc
    rw [List.eq_of_mem_replicate hc]
    simp [zeroChunk]
  refine ⟨hlen, hall, ?_⟩
  rw [Frame.buffer, List.length_flatten, sum_map_length_const _ hall, hlen]
  rw [FRAME_SIZE, Nat.mul_comm]

/-! ### Eviction order and the frame-pair staggering -/

lemma writeSeq_take_drop (cs : List Chunk) (f : Frame) (h : cs.length ≤ f.samples.length) :
    (f.writeSeq cs).1 = f.samples.take cs.length ∧
    (f.writeSeq cs).2.samples = f.samples.drop cs.length ++ cs := by
  induction cs generalizing f with
  | nil => simp [Frame.writeSeq]
  | cons c rest ih =>
      rcases f with ⟨s⟩
      cases s with
      | nil => simp at h
      | cons a t =>
          simp only [List.length_cons] at h
          have hrest : rest.length ≤ t.length := by
            simpa [List.length_cons] using Nat.le_of_succ_le_succ h
          have hwrite : (Frame.mk (a :: t)).write c = (a, ⟨t ++ [c]⟩) := by
            simp [Frame.write]
          have ih' := ih ⟨t ++ [c]⟩ (by simp; omega)
          constructor
          · show ((Frame.mk (a :: t)).write c).1 ::
                ((((Frame.mk (a :: t)).write c).2).writeSeq rest).1 = _
            rw [hwrite]
            simp only [List.length_cons, List.take_succ_cons]
            rw [ih'.1, List.take_append_of_le_length hrest]
          · show ((((Frame.mk (a :: t)).write c).2).writeSeq rest).2.samples = _
            rw [hwrite]
            simp only [List.length_cons, List.drop_succ_cons]
            rw [ih'.2, List.drop_append_of_le_length hrest]
            simp

lemma framePairInv_step (s : FrameProcessor) (l : List Chunk) (b : Chunk)
    (h : framePairInv s l) : framePairInv (s.write b) (l.tail ++ [b]) := by
  obtain ⟨p1, p2, p3, p4, q1, q2, q3, q4, hp, hq, hl⟩ := h
  refine ⟨p2, p3, p4, q1, q2, q3, q4, b, ?_, ?_, ?_⟩
  · show ((s.frames.1.write ((s.frames.2.write b).1)).2).samples = _
    rw [Frame.write, Frame.write, hp, hq]
    rfl
  · show ((s.frames.2.write b).2).samples = _
    rw [Frame.write, hq]
    rfl
  · rw [← hl]
    rfl

lemma writeAll_framePairInv (cs : List Chunk) (s : FrameProcessor) (l : List Chunk)
    (h : framePairInv s l) :
    framePairInv (s.writeAll cs) ((l ++ cs).drop cs.length) := by
  induction cs generalizing s l with
  | nil => simpa using h
  | cons b rest ih =>
      obtain ⟨p1, p2, p3, p4, q1, q2, q3, q4, hp, hq, hl⟩ := h
      subst hl
      have h' := framePairInv_step s _ b ⟨p1, p2, p3, p4, q1, q2, q3, q4, hp, hq, rfl⟩
      have ih' := ih (s.write b) _ h'
      show framePairInv ((s.write b).writeAll rest) _
      simpa [List.cons_append] using ih'

lemma new_framePairInv :
    framePairInv FrameProcessor.new (List.replicate (2 * BUFFERS_PER_FRAME) zeroChunk) :=
  ⟨zeroChunk, zeroChunk, zeroChunk, zeroChunk, zeroChunk, zeroChunk, zeroChunk, zeroChunk,
    rfl, rfl, rfl⟩

lemma writeAll_prev_samples (cs : List Chunk) :
    ((FrameProcessor.new.writeAll cs).frames.1).samples =
      ((List.replicate (2 * BUFFERS_PER_FRAME) zeroChunk ++ cs).drop cs.length).take 4 := by
  obtain ⟨p1, p2, p3, p4, q1, q2, q3, q4, hp, hq, hl⟩ :=
    writeAll_framePairInv cs FrameProcessor.new _ new_framePairInv
  rw [hp, ← hl]
  rfl

lemma writeAll_curr_samples (cs : List Chunk) :
    ((FrameProcessor.new.writeAll cs).frames.2).samples =
      ((List.replicate (2 * BUFFERS_PER_FRAME) zeroChunk ++ cs).drop cs.length).drop 4 := by
  obtain ⟨p1, p2, p3, p4, q1, q2, q3, q4, hp, hq, hl⟩ :=
    writeAll_framePairInv cs FrameProcessor.new _ new_framePairInv
  rw [hq, ← hl]
  rfl

/-! ### The threshold and peak-picking pipeline -/

lemma exists_cons3 (l : List ℚ) (h : 3 ≤ l.length) :
    ∃ x0 x1 x2 rest, l = x0 :: x1 :: x2 :: rest := by
  match l, h with
  | x0 :: x1 :: x2 :: rest, _ => exact ⟨x0, x1, x2, rest, rfl⟩
  | [], h => simp at h
  | [x0], h => simp at h
  | [x0, x1], h => simp at h

lemma sliceRange_eq (l : List ℚ) (b : Nat) (h : b ≤ l.length) :
    sliceRange l 0 b = some (l.take b) := by
  unfold sliceRange
  rw [if_pos ⟨by omega, h⟩]
  rw [List.drop_zero]

lemma calculate_threshold_eq (s : FrameProcessor) (h : 10 ≤ s.history.length) :
    s.calculate_threshold =
      some (1.0 * median (s.history.take 10) + 0.7 * mean (s.history.take 10)
              + s.highest_peak * 0.05,
            { s with threshold :=
              (1.0 * median (s.history.take 10) + 0.7 * mean (s.history.take 10)
                + s.highest_peak * 0.05) }) := by
  unfold FrameProcessor.calculate_threshold
  show (match sliceRange s.history 0 10 with
        | none => none
        | some prev_values =>
            some ((1.0:ℚ) * median prev_values + 0.7 * mean prev_values
                    + s.highest_peak * 0.05,
                  { s with threshold :=
                    ((1.0:ℚ) * median prev_values + 0.7 * mean prev_values
                      + s.highest_peak * 0.05) }))
      = _
  rw [sliceRange_eq s.history 10 h]

lemma check_spec (s : FrameProcessor) (h : 3 ≤ s.history.length) :
    s.check_for_previous_onset =
      some (if s.history.getD 1 0 > s.history.getD 0 0 ∧ s.history.getD 1 0 > s.history.getD 2 0
               ∧ s.history.getD 1 0 > s.threshold
            then (true, { s with highest_peak := max s.highest_peak (s.history.getD 1 0) })
            else (false, s)) := by
  obtain ⟨x0, x1, x2, rest, hl⟩ := exists_cons3 s.history h
  have hslice : sliceRange s.history 0 3 = some [x0, x1, x2] := by
    rw [hl]
    unfold sliceRange
    rw [if_pos ⟨by omega, by simp⟩]
    simp
  have hg0 : s.history.getD 0 0 = x0 := by rw [hl]; rfl
  have hg1 : s.history.getD 1 0 = x1 := by rw [hl]; rfl
  have hg2 : s.history.getD 2 0 = x2 := by rw [hl]; rfl
  have hmax : (if x1 > s.highest_peak then x1 else s.highest_peak)
      = max s.highest_peak x1 := by
    rcases lt_or_le s.highest_peak x1 with hc | hc
    · rw [if_pos hc, max_eq_right hc.le]
    · rw [if_neg (not_lt.mpr hc), max_eq_left hc]
  unfold FrameProcessor.check_for_previous_onset
  rw [hslice]
  show (if x1 > x0 ∧ x1 > x2 then
          if x1 > s.threshold then
            some (true, { s with highest_peak :=
              if x1 > s.highest_peak then x1 else s.highest_peak })
          else some (false, s)
        else some (false, s)) = _
  rw [hg0, hg1, hg2, hmax]
  by_cases hA : x1 > x0 ∧ x1 > x2
  · by_cases hB : x1 > s.threshold
    · rw [if_pos hA, if_pos hB, if_pos ⟨hA.1, hA.2, hB⟩]
    · rw [if_pos hA, if_neg hB, if_neg (fun hC => hB hC.2.2)]
  · rw [if_neg hA, if_neg (fun hC => hA ⟨hC.1, hC.2.1⟩)]

/-- Explicit description of a successful `process` call: for a state whose
history already holds at least 9 entries, `process` shifts the frames,
prepends the energy ODF `H.head`, installs the freshly computed threshold
`T`, and answers the peak-pick over `H` against `T`. -/
lemma process_spec (s : FrameProcessor) (b : Chunk) (h : 9 ≤ s.history.length)
    (H : List ℚ) (T : ℚ)
    (hH : H = |(s.write b).frames.2.energy - (s.write b).frames.1.energy| :: s.history)
    (hT : T = 1.0 * median (H.take 10) + 0.7 * mean (H.take 10) + s.highest_peak * 0.05) :
    s.process b =
      if H.getD 1 0 > H.getD 0 0 ∧ H.getD 1 0 > H.getD 2 0 ∧ H.getD 1 0 > T then
        some (true,
          { s.write b with
              history := H, threshold := T,
              highest_peak := max s.highest_peak (H.getD 1 0) })
      else
        some (false, { s.write b with history := H, threshold := T }) := by
  have hs2 : ((s.write b).update_history
      |(s.write b).frames.2.energy - (s.write b).frames.1.energy|)
      = { s.write b with history := H } := by
    rw [hH]
    rfl
  have hlen : ({ s.write b with history := H } : FrameProcessor).history.length = H.length := rfl
  have hHlen : 10 ≤ H.length := by
    rw [hH]
    simp only [List.length_cons]
    omega
  unfold FrameProcessor.process
  show (match ((s.write b).update_history
          |(s.write b).frames.2.energy - (s.write b).frames.1.energy|).calculate_threshold with
        | none => none
        | some r => r.2.check_for_previous_onset) = _
  rw [hs2, calculate_threshold_eq _ (by rw [hlen]; exact hHlen)]
  show FrameProcessor.check_for_previous_onset
      { s.write b with history := H, threshold :=
          (1.0 * median (H.take 10) + 0.7 * mean (H.take 10) + s.highest_peak * 0.05) } = _
  rw [check_spec _ (by simpa using le_trans (by omega) hHlen), ← hT]
  rcases hcond : decide (H.getD 1 0 > H.getD 0 0 ∧ H.getD 1 0 > H.getD 2 0 ∧ H.getD 1 0 > T)
    with _ | _
  · have hc := of_decide_eq_false hcond
    rw [if_neg hc, if_neg hc]
  · have hc := of_decide_eq_true hcond
    rw [if_pos hc, if_pos hc]
    rfl

/-- C2: with at least 3 (and here at least 10, so that the threshold step is
defined) history entries, the peak-picking step returns true iff
`history[1] > history[0]`, `history[1] > history[2]` and
`history[1] > threshold`, and raises `highest_peak` to
`max highest_peak history[1]` exactly in that case, leaving the state
untouched otherwise; consequently an onset reported by a successful
`process` call reflects the history value produced by the previous call
(the pre-call head of the history), never the ODF value just computed. -/
theorem peak_pick_spec (s : FrameProcessor) (b : Chunk)
    (h3 : 3 ≤ s.history.length) (h9 : 9 ≤ s.history.length) :
    (s.check_for_previous_onset =
      some (if s.history.getD 1 0 > s.history.getD 0 0 ∧
               s.history.getD 1 0 > s.history.getD 2 0 ∧
               s.history.getD 1 0 > s.threshold
            then (true, { s with highest_peak := max s.highest_peak (s.history.getD 1 0) })
            else (false, s))) ∧
    (∃ r s', s.process b = some (r, s') ∧
       (r = true → s'.highest_peak = max s.highest_peak (s.history.getD 0 0)) ∧
       (r = false → s'.highest_peak = s.highest_peak)) := by
  refine ⟨check_spec s h3, ?_⟩
  have hps := process_spec s b h9 _ _ rfl rfl
  split at hps
  · exact ⟨true, _, hps, fun _ => rfl, fun hf => Bool.noConfusion hf⟩
  · exact ⟨false, _, hps, fun ht => Bool.noConfusion ht, fun _ => rfl⟩

/-- C2 witness at the concrete warm state and the zero chunk. -/
theorem peak_pick_spec_witness :
    (3 ≤ warmState.history.length ∧ 9 ≤ warmState.history.length) ∧
    ((warmState.check_for_previous_onset =
        some (if warmState.history.getD 1 0 > warmState.history.getD 0 0 ∧
                 warmState.history.getD 1 0 > warmState.history.getD 2 0 ∧
                 warmState.history.getD 1 0 > warmState.threshold
              then (true,
                     { warmState with
                         highest_peak := max warmState.highest_peak (warmState.history.getD 1 0) })
              else (false, warmState))) ∧
     (∃ r s', warmState.process zeroChunk = some (r, s') ∧
        (r = true → s'.highest_peak = max warmState.highest_peak (warmState.history.getD 0 0)) ∧
        (r = false → s'.highest_peak = warmState.highest_peak))) :=
  ⟨⟨by decide, by decide⟩, peak_pick_spec warmState zeroChunk (by decide) (by decide)⟩

/-- C3: with at least 10 history entries, `calculate_threshold` sets and
returns `1.0 * median(history[0..10]) + 0.7 * mean(history[0..10]) +
highest_peak * 0.05` over the 10 most recent history values, and every
successful `process` call leaves the threshold at exactly this formula
evaluated over its post-update history (with the pre-call highest peak). -/
theorem threshold_formula (s : FrameProcessor) (b : Chunk)
    (h10 : 10 ≤ s.history.length) (h9 : 9 ≤ s.history.length) :
    (s.calculate_threshold =
      some (1.0 * median (s.history.take 10) + 0.7 * mean (s.history.take 10)
              + s.highest_peak * 0.05,
            { s with threshold :=
              (1.0 * median (s.history.take 10) + 0.7 * mean (s.history.take 10)
                + s.highest_peak * 0.05) })) ∧
    (∃ r s', s.process b = some (r, s') ∧
      s'.threshold = 1.0 * median (s'.history.take 10) + 0.7 * mean (s'.history.take 10)
        + s.highest_peak * 0.05) := by
  refine ⟨calculate_threshold_eq s h10, ?_⟩
  have hps := process_spec s b h9 _ _ rfl rfl
  split at hps
  · exact ⟨true, _, hps, rfl⟩
  · exact ⟨false, _, hps, rfl⟩

/-- C3 witness at the concrete warm state and the zero chunk. -/
theorem threshold_formula_witness :
    (10 ≤ warmState.history.length ∧ 9 ≤ warmState.history.length) ∧
    ((warmState.calculate_threshold =
      some (1.0 * median (warmState.history.take 10) + 0.7 * mean (warmState.history.take 10)
              + warmState.highest_peak * 0.05,
            { warmState with threshold :=
              (1.0 * median (warmState.history.take 10) + 0.7 * mean (warmState.history.take 10)
                + warmState.highest_peak * 0.05) })) ∧
     (∃ r s', warmState.process zeroChunk = some (r, s') ∧
       s'.threshold = 1.0 * median (s'.history.take 10) + 0.7 * mean (s'.history.take 10)
         + warmState.highest_peak * 0.05)) :=
  ⟨⟨by decide, by decide⟩, threshold_formula warmState zeroChunk (by decide) (by decide)⟩

/-- C5: a (successful) `process` call first shifts the chunk into the
current frame while the chunk evicted from current is pushed into the
previous frame, then prepends exactly the absolute energy difference of the
post-shift frames to the history, so that `history[0]` is the newest ODF
value. -/
theorem process_pipeline (s : FrameProcessor) (b : Chunk) (h9 : 9 ≤ s.history.length) :
    ∃ r s', s.process b = some (r, s') ∧
      s'.frames.2 = (s.frames.2.write b).2 ∧
      s'.frames.1 = (s.frames.1.write ((s.frames.2.write b).1)).2 ∧
      s'.history = |s'.frames.2.energy - s'.frames.1.energy| :: s.history := by
  have hps := process_spec s b h9 _ _ rfl rfl
  split at hps
  · exact ⟨true, _, hps, rfl, rfl, rfl⟩
  · exact ⟨false, _, hps, rfl, rfl, rfl⟩

/-- C5 witness at the concrete warm state and the all-one chunk. -/
theorem process_pipeline_witness :
    9 ≤ warmState.history.length ∧
    (∃ r s', warmState.process oneChunk = some (r, s') ∧
      s'.frames.2 = (warmState.frames.2.write oneChunk).2 ∧
      s'.frames.1 = (warmState.frames.1.write ((warmState.frames.2.write oneChunk).1)).2 ∧
      s'.history = |s'.frames.2.energy - s'.frames.1.energy| :: warmState.history) :=
  ⟨by decide, process_pipeline warmState oneChunk (by decide)⟩

/-- C6: a `process` call dies on the out-of-bounds history slice inside the
threshold computation — rather than returning a boolean — exactly when the
history holds fewer than 9 entries before the call (i.e. fewer than 10 when
the threshold step reads `history[0..10]`); `calculate_threshold` itself
faults exactly below 10 entries. -/
theorem process_warmup_fault (s : FrameProcessor) (b : Chunk) :
    (s.process b = none ↔ s.history.length < 9) ∧
    (s.calculate_threshold = none ↔ s.history.length < 10) := by
  have hct : ∀ s1 : FrameProcessor, s1.calculate_threshold = none ↔ s1.history.length < 10 := by
    intro s1
    constructor
    · intro hnone
      by_contra hge
      rw [calculate_threshold_eq s1 (by omega)] at hnone
      exact Option.noConfusion hnone
    · intro hlt
      unfold FrameProcessor.calculate_threshold
      show (match sliceRange s1.history 0 10 with
            | none => none
            | some prev_values =>
                some ((1.0:ℚ) * median prev_values + 0.7 * mean prev_values
                        + s1.highest_peak * 0.05,
                      { s1 with threshold :=
                        ((1.0:ℚ) * median prev_values + 0.7 * mean prev_values
                          + s1.highest_peak * 0.05) }))
          = none
      have hsl : sliceRange s1.history 0 10 = none := by
        unfold sliceRange
        rw [if_neg]
        rintro ⟨-, hble⟩
        omega
      rw [hsl]
  refine ⟨?_, hct s⟩
  by_cases h9 : 9 ≤ s.history.length
  · have hps := process_spec s b h9 _ _ rfl rfl
    constructor
    · intro hx
      rw [hps] at hx
      split at hx <;> exact Option.noConfusion hx
    · intro hlt
      omega
  · have hlen : ((s.write b).update_history
        |(s.write b).frames.2.energy - (s.write b).frames.1.energy|).history.length
        = s.history.length + 1 := rfl
    have hnone : s.process b = none := by
      unfold FrameProcessor.process
      show (match ((s.write b).update_history
              |(s.write b).frames.2.energy - (s.write b).frames.1.energy|).calculate_threshold with
            | none => none
            | some r => r.2.check_for_previous_onset) = none
      rw [(hct _).mpr (by rw [hlen]; omega)]
    rw [hnone]
    simp
    omega

lemma zeroChunk_ne_oneChunk : zeroChunk ≠ oneChunk := by
  intro h
  have h0 := congrArg (fun l => l[0]?) h
  simp only [zeroChunk, oneChunk, List.getElem?_replicate, BUFFER_SIZE] at h0
  norm_num at h0

/-- C1 counterexample: after the processor shifts in two constant-one
chunks, the previous frame holds four zero chunks, while the window lagging
current by exactly one chunk-write (current's window after only the first
shift) is `[0-chunk, 0-chunk, 0-chunk, 1-chunk]`; moreover the two frames
do not overlap in all but one chunk (`prev.drop 1 ≠ curr.take 3`), so the
frames are not one-chunk-staggered overlapping windows. -/
theorem framePair_not_lag_one :
    ¬ (((FrameProcessor.new.writeAll [oneChunk, oneChunk]).frames.1).samples
        = ((FrameProcessor.new.writeAll [oneChunk]).frames.2).samples) ∧
    ¬ (((FrameProcessor.new.writeAll [oneChunk, oneChunk]).frames.1).samples.drop 1
        = ((FrameProcessor.new.writeAll [oneChunk, oneChunk]).frames.2).samples.take 3) := by
  have hprev : ((FrameProcessor.new.writeAll [oneChunk, oneChunk]).frames.1).samples
      = [zeroChunk, zeroChunk, zeroChunk, zeroChunk] := rfl
  have hcurr1 : ((FrameProcessor.new.writeAll [oneChunk]).frames.2).samples
      = [zeroChunk, zeroChunk, zeroChunk, oneChunk] := rfl
  have hcurr2 : ((FrameProcessor.new.writeAll [oneChunk, oneChunk]).frames.2).samples
      = [zeroChunk, zeroChunk, oneChunk, oneChunk] := rfl
  constructor
  · rw [hprev, hcurr1]
    simp [zeroChunk_ne_oneChunk]
  · rw [hprev, hcurr2]
    simp [zeroChunk_ne_oneChunk]

/-- C1 amended: the previous frame lags the current frame by exactly
`BUFFERS_PER_FRAME` (= `WINDOW_CHUNKS` = 4) chunk-writes, not one: after
any write sequence the two frames tile the last `2 * BUFFERS_PER_FRAME`
chunks of the zero-padded chunk stream as adjacent, non-overlapping
windows (previous ++ current), and writing `BUFFERS_PER_FRAME` further
chunks turns the then-previous window into the now-current one. -/
theorem framePair_adjacent_windows (cs : List Chunk) :
    (((FrameProcessor.new.writeAll cs).frames.1).samples ++
        ((FrameProcessor.new.writeAll cs).frames.2).samples =
      (List.replicate (2 * BUFFERS_PER_FRAME) zeroChunk ++ cs).drop cs.length) ∧
    (∀ ds : List Chunk, ds.length = BUFFERS_PER_FRAME →
      ((FrameProcessor.new.writeAll (cs ++ ds)).frames.1).samples =
        ((FrameProcessor.new.writeAll cs).frames.2).samples) := by
  constructor
  · rw [writeAll_prev_samples cs, writeAll_curr_samples cs]
    exact List.take_append_drop 4 _
  · intro ds hds
    rw [writeAll_prev_samples (cs ++ ds), writeAll_curr_samples cs]
    have hbpf : BUFFERS_PER_FRAME = 4 := rfl
    rw [hbpf] at hds
    have hlen8 : (List.replicate (2 * BUFFERS_PER_FRAME) zeroChunk ++ cs).length
        = cs.length + 8 := by
      simp [BUFFERS_PER_FRAME]
    rw [List.length_append, hds, ← List.append_assoc]
    rw [List.drop_append_of_le_length (by omega)]
    have hdroplen : ((List.replicate (2 * BUFFERS_PER_FRAME) zeroChunk ++ cs).drop
        (cs.length + 4)).length = 4 := by
      rw [List.length_drop, hlen8]
      omega
    rw [List.take_append_of_le_length (by omega), List.take_of_length_le (by omega)]
    rw [← List.drop_drop]

/-- C1 amended witness: one non-zero chunk written, then four more. -/
theorem framePair_adjacent_windows_witness :
    (((FrameProcessor.new.writeAll [oneChunk]).frames.1).samples ++
        ((FrameProcessor.new.writeAll [oneChunk]).frames.2).samples =
      (List.replicate (2 * BUFFERS_PER_FRAME) zeroChunk ++ [oneChunk]).drop
        ([oneChunk] : List Chunk).length) ∧
    (([oneChunk, oneChunk, oneChunk, oneChunk] : List Chunk).length = BUFFERS_PER_FRAME) ∧
    ((FrameProcessor.new.writeAll
        ([oneChunk] ++ [oneChunk, oneChunk, oneChunk, oneChunk])).frames.1).samples =
      ((FrameProcessor.new.writeAll [oneChunk]).frames.2).samples :=
  ⟨(framePair_adjacent_windows [oneChunk]).1, by decide,
   (framePair_adjacent_windows [oneChunk]).2
     [oneChunk, oneChunk, oneChunk, oneChunk] (by decide)⟩

/-- C10: during the first `BUFFERS_PER_FRAME` writes on a fresh frame every
evicted chunk is the zero chunk created at construction; consequently the
processor's first `BUFFERS_PER_FRAME` shifts push only zero chunks into the
previous frame, which therefore stays all-zero. -/
theorem fresh_writes_evict_zero (cs : List Chunk) (h : cs.length ≤ BUFFERS_PER_FRAME) :
    (Frame.new.writeSeq cs).1 = List.replicate cs.length zeroChunk ∧
    ((FrameProcessor.new.writeAll cs).frames.1).samples =
      List.replicate BUFFERS_PER_FRAME zeroChunk := by
  have hbpf : BUFFERS_PER_FRAME = 4 := rfl
  constructor
  · have hw := (writeSeq_take_drop cs Frame.new (by simpa [Frame.new] using h)).1
    rw [hw]
    show (List.replicate BUFFERS_PER_FRAME zeroChunk).take cs.length = _
    rw [List.take_replicate, min_eq_left h]
  · rw [writeAll_prev_samples cs]
    rw [hbpf] at h ⊢
    rw [List.drop_append_of_le_length (by simp; omega), List.drop_replicate]
    rw [List.take_append_of_le_length (by simp; omega), List.take_replicate]
    congr 1
    omega

/-- C10 witness: a single non-zero chunk written into the fresh state. -/
theorem fresh_writes_evict_zero_witness :
    (([oneChunk] : List Chunk).length ≤ BUFFERS_PER_FRAME) ∧
    ((Frame.new.writeSeq [oneChunk]).1
        = List.replicate ([oneChunk] : List Chunk).length zeroChunk ∧
     ((FrameProcessor.new.writeAll [oneChunk]).frames.1).samples
        = List.replicate BUFFERS_PER_FRAME zeroChunk) :=
  ⟨by decide, fresh_writes_evict_zero [oneChunk] (by decide)⟩

/-- C8 witness at a concrete one-chunk write sequence. -/
theorem frame_window_invariant_witness :
    (∀ c ∈ [List.replicate BUFFER_SIZE (7:ℚ)], c.length = BUFFER_SIZE) ∧
    ((Frame.new.writeAll [List.replicate BUFFER_SIZE (7:ℚ)]).samples.length = BUFFERS_PER_FRAME ∧
     (∀ c ∈ (Frame.new.writeAll [List.replicate BUFFER_SIZE (7:ℚ)]).samples,
        c.length = BUFFER_SIZE) ∧
     (Frame.new.writeAll [List.replicate BUFFER_SIZE (7:ℚ)]).buffer.length = FRAME_SIZE) :=
  ⟨by simp, frame_window_invariant _ (by simp)⟩
